import Mathlib

/-!
A shallow embedding of the pairwise learning-to-rank program in
src/ranking/RankNet.py, together with theorems checking its specification.

Conventions of the embedding:
  - tensors are lists of real numbers (a batch is a list of rows);
  - a fully connected layer (nn.Linear) is a weight matrix, stored as a
    list of rows, plus a bias vector;
  - the dynamically addressed layers fc1 .. fcN of the Python class are the
    elements of a plain list of layers, in order;
  - np.mean of an empty list, which is NaN in numpy, is modelled as
    Option.none;
  - effects of the training loop (optimizer steps, checkpoint saves,
    inference-model syncs, evaluation runs) are recorded as an event trace;
  - the optimizer step itself (autograd) is torch internals, abstracted as
    a parameter updating the layer list; its internal state and the
    scheduler state are abstracted as tokens, since the program only ever
    passes them around.
-/

/-- Rectified linear unit, F.relu. -/
noncomputable def relu (x : ℝ) : ℝ := max x 0

/-- Logistic sigmoid, torch.sigmoid. -/
noncomputable def sigmoid (x : ℝ) : ℝ := 1 / (1 + Real.exp (-x))

/-- Dot product of two real vectors (truncating at the shorter one; the
program only ever uses matching widths). -/
noncomputable def dot : List ℝ → List ℝ → ℝ
  | [], _ => 0
  | _, [] => 0
  | a :: as, b :: bs => a * b + dot as bs

/-- One fully connected layer, nn.Linear: weight matrix (list of rows) and
bias vector. -/
structure Linear where
  weight : List (List ℝ)
  bias : List ℝ

/-- Apply a linear layer to a feature vector: each output component is the
dot product of a weight row with the input, plus the matching bias. -/
noncomputable def Linear.apply (l : Linear) (x : List ℝ) : List ℝ :=
  List.zipWith (fun row b => dot row x + b) l.weight l.bias

/-- Apply a linear layer to a batch, row by row (torch applies nn.Linear to
the last dimension of a batched tensor). -/
noncomputable def Linear.applyBatch (l : Linear) (xs : List (List ℝ)) : List (List ℝ) :=
  xs.map l.apply

namespace RankNet

/-- Per-side computation inside RankNet.forward (src/ranking/RankNet.py
lines 44-54, one input): layers fc1 .. fc(N-1) each followed by F.relu,
the final layer fcN followed by torch.sigmoid. -/
noncomputable def sideScore : List Linear → List ℝ → List ℝ
  | [], x => x
  | [fc], x => (fc.apply x).map sigmoid
  | fc :: fc2 :: rest, x => sideScore (fc2 :: rest) ((fc.apply x).map relu)

/-- RankNet.forward (src/ranking/RankNet.py lines 44-57): both inputs are
pushed through the same layer list (ReLU on all but the last layer, sigmoid
on the last), then the result is sigmoid(input1 - input2), elementwise. -/
noncomputable def forward : List Linear → List ℝ → List ℝ → List ℝ
  | [], input1, input2 => List.zipWith (fun a b => sigmoid (a - b)) input1 input2
  | [fc], input1, input2 =>
      List.zipWith (fun a b => sigmoid (a - b))
        ((fc.apply input1).map sigmoid) ((fc.apply input2).map sigmoid)
  | fc :: fc2 :: rest, input1, input2 =>
      forward (fc2 :: rest) ((fc.apply input1).map relu) ((fc.apply input2).map relu)

/-- RankNet.forward on batched inputs: the same traversal of the layer list,
with every operation applied rowwise, as torch broadcasting does. -/
noncomputable def forwardBatch : List Linear → List (List ℝ) → List (List ℝ) → List (List ℝ)
  | [], b1, b2 => List.zipWith (List.zipWith (fun a b => sigmoid (a - b))) b1 b2
  | [fc], b1, b2 =>
      List.zipWith (List.zipWith (fun a b => sigmoid (a - b)))
        ((fc.applyBatch b1).map (List.map sigmoid)) ((fc.applyBatch b2).map (List.map sigmoid))
  | fc :: fc2 :: rest, b1, b2 =>
      forwardBatch (fc2 :: rest)
        ((fc.applyBatch b1).map (List.map relu)) ((fc.applyBatch b2).map (List.map relu))

end RankNet

namespace RankNetInference

/-- RankNetInference.forward (src/ranking/RankNet.py lines 64-71): layers
fc1 .. fc(N-1) each followed by F.relu, the final layer followed by
torch.sigmoid, on a single input. -/
noncomputable def run : List Linear → List ℝ → List ℝ
  | [], input1 => input1
  | [fc], input1 => (fc.apply input1).map sigmoid
  | fc :: fc2 :: rest, input1 => run (fc2 :: rest) ((fc.apply input1).map relu)

end RankNetInference

/-- The inference network: a structurally identical network holding its own
copy of the layer parameters. -/
structure InferenceNet where
  layers : List Linear

/-- Parameter sync, net_inference.load_state_dict(net.state_dict())
(src/ranking/RankNet.py line 153): every parameter of the inference network
is overwritten with a copy of the training network parameters. -/
def syncInferenceNet (_inf : InferenceNet) (netLayers : List Linear) : InferenceNet :=
  { layers := netLayers }

/- Basic facts about the sigmoid. -/

theorem sigmoid_pos (x : ℝ) : 0 < sigmoid x := by
  unfold sigmoid
  have h := Real.exp_pos (-x)
  positivity

theorem sigmoid_lt_one (x : ℝ) : sigmoid x < 1 := by
  unfold sigmoid
  have h := Real.exp_pos (-x)
  rw [div_lt_one (by linarith)]
  linarith

theorem sigmoid_add_sigmoid_neg (x : ℝ) : sigmoid x + sigmoid (-x) = 1 := by
  unfold sigmoid
  have h1 := Real.exp_pos (-x)
  have h2 := Real.exp_pos x
  have h3 : Real.exp (-x) * Real.exp x = 1 := by
    rw [← Real.exp_add]
    simp
  rw [neg_neg]
  field_simp
  nlinarith [h3]

theorem sigmoid_zero : sigmoid 0 = 1 / 2 := by
  unfold sigmoid
  norm_num

/- Helper lemmas used to factor the pairwise forward pass. -/

theorem forward_eq_sideScore (ls : List Linear) (x1 x2 : List ℝ) :
    RankNet.forward ls x1 x2
      = List.zipWith (fun a b => sigmoid (a - b))
          (RankNet.sideScore ls x1) (RankNet.sideScore ls x2) := by
  induction ls generalizing x1 x2 with
  | nil => rfl
  | cons fc rest ih =>
    cases rest with
    | nil => rfl
    | cons fc2 rest2 =>
      simp only [RankNet.forward, RankNet.sideScore]
      exact ih _ _

theorem run_eq_sideScore (ls : List Linear) (x : List ℝ) :
    RankNetInference.run ls x = RankNet.sideScore ls x := by
  induction ls generalizing x with
  | nil => rfl
  | cons fc rest ih =>
    cases rest with
    | nil => rfl
    | cons fc2 rest2 =>
      simp only [RankNetInference.run, RankNet.sideScore]
      exact ih _

theorem zipWith_ext {α β γ : Type} {f g : α → β → γ} (h : ∀ a b, f a b = g a b)
    (l1 : List α) (l2 : List β) : List.zipWith f l1 l2 = List.zipWith g l1 l2 := by
  have hf : f = g := funext fun a => funext fun b => h a b
  rw [hf]

theorem forwardBatch_eq_zipWith (ls : List Linear) (b1 b2 : List (List ℝ)) :
    RankNet.forwardBatch ls b1 b2 = List.zipWith (RankNet.forward ls) b1 b2 := by
  induction ls generalizing b1 b2 with
  | nil =>
    simp only [RankNet.forwardBatch]
    apply zipWith_ext
    intro a b
    rfl
  | cons fc rest ih =>
    cases rest with
    | nil =>
      simp only [RankNet.forwardBatch, Linear.applyBatch, List.map_map, List.zipWith_map]
      apply zipWith_ext
      intro a b
      rfl
    | cons fc2 rest2 =>
      simp only [RankNet.forwardBatch, Linear.applyBatch, List.map_map, ih, List.zipWith_map]
      apply zipWith_ext
      intro a b
      rfl

theorem eq_of_mem_zipWith {α β γ : Type} {f : α → β → γ} :
    ∀ {l1 : List α} {l2 : List β} {c : γ}, c ∈ List.zipWith f l1 l2 → ∃ a b, c = f a b := by
  intro l1
  induction l1 with
  | nil =>
    intro l2 c h
    simp at h
  | cons a as ih =>
    intro l2 c h
    cases l2 with
    | nil => simp at h
    | cons b bs =>
      rcases List.mem_cons.1 h with h1 | h2
      · exact ⟨a, b, h1⟩
      · exact ih h2

theorem zipWith_sigmoid_sub_add (s1 : List ℝ) : ∀ s2 : List ℝ,
    List.zipWith (fun a b => a + b)
        (List.zipWith (fun a b => sigmoid (a - b)) s1 s2)
        (List.zipWith (fun a b => sigmoid (a - b)) s2 s1)
      = (List.zipWith (fun a b => sigmoid (a - b)) s1 s2).map (fun _ => 1) := by
  induction s1 with
  | nil =>
    intro s2
    simp
  | cons a as ih =>
    intro s2
    cases s2 with
    | nil => simp
    | cons b bs =>
      simp only [List.zipWith_cons_cons, List.map_cons]
      rw [List.cons.injEq]
      refine ⟨?_, ih bs⟩
      have h := sigmoid_add_sigmoid_neg (a - b)
      rw [neg_sub] at h
      exact h

theorem zipWith_sigmoid_sub_self (s : List ℝ) :
    List.zipWith (fun a b => sigmoid (a - b)) s s = List.replicate s.length (1 / 2) := by
  induction s with
  | nil => simp
  | cons a as ih =>
    simp only [List.zipWith_cons_cons, List.length_cons, List.replicate_succ]
    rw [List.cons.injEq]
    refine ⟨?_, ih⟩
    rw [sub_self, sigmoid_zero]

/-- C1: RankNet.forward returns, for single vectors and for batches, the
elementwise sigmoid of the difference of the two per-side scores, where the
per-side score applies each non-final layer followed by ReLU and the final
layer followed by sigmoid, both sides going through one shared layer list;
every component of the result is strictly between 0 and 1. -/
theorem ranknet_pairwise_forward_spec (ls : List Linear) (x1 x2 : List ℝ)
    (b1 b2 : List (List ℝ)) :
    RankNet.forward ls x1 x2
      = List.zipWith (fun a b => sigmoid (a - b))
          (RankNet.sideScore ls x1) (RankNet.sideScore ls x2) ∧
    RankNet.forwardBatch ls b1 b2 = List.zipWith (RankNet.forward ls) b1 b2 ∧
    ∀ v ∈ RankNet.forward ls x1 x2, 0 < v ∧ v < 1 := by
  refine ⟨forward_eq_sideScore ls x1 x2, forwardBatch_eq_zipWith ls b1 b2, ?_⟩
  intro v hv
  rw [forward_eq_sideScore] at hv
  obtain ⟨a, b, rfl⟩ := eq_of_mem_zipWith hv
  exact ⟨sigmoid_pos _, sigmoid_lt_one _⟩

/-- Witness for C1, at a one-layer network with weight 1 and bias 0 on the
concrete inputs x1 = [1] and x2 = [0]. -/
theorem ranknet_pairwise_forward_spec_witness :
    0 < sigmoid (sigmoid 1 - sigmoid 0) ∧ sigmoid (sigmoid 1 - sigmoid 0) < 1 :=
  (ranknet_pairwise_forward_spec [⟨[[1]], [0]⟩] [1] [0] [] []).2.2 _ (by
    norm_num [RankNet.forward, Linear.apply, dot])

/-- C2: for any fixed layer list, swapping the inputs is anti-symmetric,
P(x1,x2) + P(x2,x1) = 1 componentwise, and on two copies of the same input
every component of the output is exactly 1/2 = sigmoid 0. -/
theorem ranknet_antisymmetry_spec (ls : List Linear) (x1 x2 x : List ℝ) :
    List.zipWith (fun a b => a + b)
        (RankNet.forward ls x1 x2) (RankNet.forward ls x2 x1)
      = (RankNet.forward ls x1 x2).map (fun _ => 1) ∧
    RankNet.forward ls x x
      = List.replicate (RankNet.sideScore ls x).length (1 / 2) := by
  constructor
  · rw [forward_eq_sideScore, forward_eq_sideScore]
    exact zipWith_sigmoid_sub_add _ _
  · rw [forward_eq_sideScore]
    exact zipWith_sigmoid_sub_self _

/-- C3: immediately after syncInferenceNet copies the training parameters,
the inference forward pass on any input equals the per-side score that
RankNet.forward computes internally on that input with those same
parameters (RankNet.forward being the sigmoid of the difference of the two
per-side scores). -/
theorem inference_matches_pairwise_side_spec (infNet : InferenceNet)
    (netLayers : List Linear) (x x2 : List ℝ) :
    RankNetInference.run (syncInferenceNet infNet netLayers).layers x
      = RankNet.sideScore netLayers x ∧
    RankNet.forward netLayers x x2
      = List.zipWith (fun a b => sigmoid (a - b))
          (RankNet.sideScore netLayers x) (RankNet.sideScore netLayers x2) :=
  ⟨run_eq_sideScore netLayers x, forward_eq_sideScore netLayers x x2⟩

/-- A batch yielded by generate_query_pair_batch: feature rows and relevance
labels for the two sides of each pair; a side may be absent (None). -/
structure Batch where
  x_i : Option (List (List ℝ))
  y_i : List ℝ
  x_j : Option (List (List ℝ))
  y_j : List ℝ

/-- The skip test of the batch loop (src/ranking/RankNet.py line 126):
continue when x_i is None or x_i has zero rows. -/
def Batch.skip (b : Batch) : Bool :=
  match b.x_i with
  | none => true
  | some m => m.length == 0

/-- A side of a batch is empty when it is absent or has zero rows. -/
def sideEmpty : Option (List (List ℝ)) → Prop
  | none => True
  | some m => m.length = 0

/-- Either side of the batch is empty. -/
def Batch.eitherSideEmpty (b : Batch) : Prop :=
  sideEmpty b.x_i ∨ sideEmpty b.x_j

/-- A well-formed pair batch, as produced by the generator contract: the two
sides are both absent or both present with the same number of rows. -/
def Batch.wf (b : Batch) : Prop :=
  (b.x_i = none ∧ b.x_j = none) ∨
  (∃ mi mj, b.x_i = some mi ∧ b.x_j = some mj ∧ mi.length = mj.length)

/-- Binary pairwise label (src/ranking/RankNet.py line 130):
(y_i > y_j).astype(np.float32), elementwise. -/
noncomputable def binaryLabel (y_i y_j : List ℝ) : List ℝ :=
  List.zipWith (fun a b => if b < a then (1 : ℝ) else 0) y_i y_j

/-- torch.nn.BCELoss with the default mean reduction. -/
noncomputable def bceLoss (pred target : List ℝ) : ℝ :=
  (List.zipWith
      (fun p t => -(t * Real.log p + (1 - t) * Real.log (1 - p))) pred target).sum
    / (pred.length : ℝ)

/-- np.mean of a list of losses; np.mean of an empty list is NaN (with a
numpy RuntimeWarning), modelled as none. -/
noncomputable def npMean (l : List ℝ) : Option ℝ :=
  if l.length = 0 then none else some (l.sum / (l.length : ℝ))

/-- External effects of the training loop, in program order. -/
inductive TrainEvent where
  | optStep (epoch : ℕ)
  | saveCkpt (epoch : ℕ)
  | syncInference (epoch : ℕ)
  | runEval (epoch : ℕ)
  | saveFinal
deriving DecidableEq

/-- State carried through the batch loop of one epoch. -/
structure EpochState where
  net : List Linear
  lossed_minibatch : List ℝ
  events : List TrainEvent

/-- Body of the batch loop (src/ranking/RankNet.py lines 125-144): skip the
batch when x_i is None or has zero rows; otherwise derive the binary label,
run the pairwise forward pass, compute the BCE loss, backpropagate and take
one optimizer step (abstracted as stepFn), and append the loss. -/
noncomputable def processBatch (stepFn : List Linear → Batch → List Linear)
    (epoch : ℕ) (st : EpochState) (b : Batch) : EpochState :=
  if b.skip then st
  else
    let y := binaryLabel b.y_i b.y_j
    let y_pred := RankNet.forwardBatch st.net (b.x_i.getD []) (b.x_j.getD [])
    let loss := bceLoss y_pred.flatten y
    { net := stepFn st.net b
      lossed_minibatch := st.lossed_minibatch ++ [loss]
      events := st.events ++ [TrainEvent.optStep epoch] }

/-- One epoch over the generated batches (src/ranking/RankNet.py
lines 122-144), starting from an empty per-epoch loss list. -/
noncomputable def runEpoch (stepFn : List Linear → Batch → List Linear)
    (epoch : ℕ) (net : List Linear) (batches : List Batch) : EpochState :=
  batches.foldl (processBatch stepFn epoch)
    { net := net, lossed_minibatch := [], events := [] }

/-- Events at the end of epoch i (src/ranking/RankNet.py lines 150-154):
when i is divisible by 5 and i is not the starting epoch, save a checkpoint,
sync the inference network, and run evaluation. -/
def ckptTail (start_epoch i : ℕ) : List TrainEvent :=
  if i % 5 = 0 ∧ i ≠ start_epoch then
    [TrainEvent.saveCkpt i, TrainEvent.syncInference i, TrainEvent.runEval i]
  else []

/-- Result of the epoch loop: per-epoch mean losses, the event trace, and
the final network parameters. -/
structure LoopResult where
  losses : List (Option ℝ)
  events : List TrainEvent
  net : List Linear

/-- The epoch loop (src/ranking/RankNet.py lines 117-154): for each of the
remaining epochs, run one epoch, record the mean of its per-batch losses,
and emit the end-of-epoch checkpoint events. -/
noncomputable def runEpochs (stepFn : List Linear → Batch → List Linear)
    (batches : List Batch) (start_epoch : ℕ) :
    ℕ → ℕ → List Linear → LoopResult
  | 0, _, net => { losses := [], events := [], net := net }
  | k + 1, i, net =>
    let es := runEpoch stepFn i net batches
    let rest := runEpochs stepFn batches start_epoch k (i + 1) es.net
    { losses := npMean es.lossed_minibatch :: rest.losses
      events := es.events ++ ckptTail start_epoch i ++ rest.events
      net := rest.net }

/-- A persisted checkpoint. The program reads only the model_state_dict
entry; the other fields are the checkpoint content named by the spec for
the external save_to_ckpt (epoch, optimizer state, scheduler state), with
the torch-internal optimizer and scheduler states abstracted as tokens. -/
structure Checkpoint where
  epoch : ℕ
  model_state_dict : List Linear
  optimizer_state_dict : ℕ
  scheduler_state_dict : ℕ

/-- load_from_ckpt (src/ranking/RankNet.py lines 202-210): append the epoch
suffix to the base name; if the file exists, load it and restore only its
model_state_dict into the model; otherwise print that the file does not
exist and leave the model untouched. Returns the resulting model parameters
and the printed log lines. -/
def load_from_ckpt (fs : List (String × Checkpoint)) (ckpt_file : String)
    (epoch : ℕ) (model : List Linear) : List Linear × List String :=
  let f := ckpt_file ++ "_" ++ toString epoch
  match fs.lookup f with
  | some ck =>
      (ck.model_state_dict, ["load from ckpt " ++ f, "finish load from ckpt " ++ f])
  | none => (model, ["ckpt file does not exist " ++ f])

/-- State of the run after Initializing. -/
structure TrainState where
  net : List Linear
  optState : ℕ
  schedState : ℕ

/-- Freshly constructed optimizer internal state (torch.optim.Adam or SGD),
abstracted as a token. -/
def freshOptState : ℕ := 0

/-- Freshly constructed StepLR scheduler state, abstracted as a token. -/
def freshSchedState : ℕ := 0

/-- Initializing (src/ranking/RankNet.py lines 83-109): construct the
networks, optimizer and scheduler; when start_epoch is nonzero, call
load_from_ckpt, which receives only the net, so the optimizer and scheduler
keep their freshly constructed state. -/
def initTrain (fs : List (String × Checkpoint)) (ckptfile : String)
    (start_epoch : ℕ) (initNet : List Linear) : TrainState :=
  let net :=
    if start_epoch ≠ 0 then (load_from_ckpt fs ckptfile start_epoch initNet).1
    else initNet
  { net := net, optState := freshOptState, schedState := freshSchedState }

/-- Result of a whole training run. -/
structure TrainResult where
  losses : List (Option ℝ)
  events : List TrainEvent
  net : List Linear

/-- train (src/ranking/RankNet.py lines 77-160): initialize (loading from a
checkpoint when start_epoch is nonzero), run the epoch loop over epochs
start_epoch .. start_epoch + additional_epoch - 1, then save one final
checkpoint with epoch number start_epoch + additional_epoch and save the
final model parameters standalone to the base file. -/
noncomputable def train (stepFn : List Linear → Batch → List Linear)
    (batches : List Batch) (fs : List (String × Checkpoint)) (ckptfile : String)
    (initNet : List Linear) (start_epoch additional_epoch : ℕ) : TrainResult :=
  let st0 := initTrain fs ckptfile start_epoch initNet
  let r := runEpochs stepFn batches start_epoch additional_epoch start_epoch st0.net
  { losses := r.losses
    events := r.events ++
      [TrainEvent.saveCkpt (start_epoch + additional_epoch), TrainEvent.saveFinal]
    net := r.net }

/-- Operations performed by eval_model, each recording the parameters it
reads and whether gradient tracking was enabled while it ran. -/
inductive EvalOp where
  | pairLoss (usedLayers : List Linear) (gradEnabled : Bool) (lossValue : ℝ)
  | crossEntropyReadout (usedLayers : List Linear) (gradEnabled : Bool)
  | ndcgReadout (usedLayers : List Linear) (gradEnabled : Bool) (kList : List ℕ)
  | backwardPass
  | optimizerStep

/-- Result of eval_model: the per-batch sanity losses, the operation trace,
and the parameters of both networks after the routine returns. -/
structure EvalModelResult where
  losses : List ℝ
  ops : List EvalOp
  modelParamsAfter : List Linear
  inferenceParamsAfter : List Linear

/-- Body of the validation batch loop of eval_model (src/ranking/RankNet.py
lines 180-190): the same skip test as in training; for a processed batch the
pairwise BCE sanity loss is computed with model — the first argument of
eval_model, the training network — on both sides, under torch.no_grad(). -/
noncomputable def evalStep (modelLayers : List Linear)
    (acc : List ℝ × List EvalOp) (b : Batch) : List ℝ × List EvalOp :=
  if b.skip then acc
  else
    let y := binaryLabel b.y_i b.y_j
    let y_pred := RankNet.forwardBatch modelLayers (b.x_i.getD []) (b.x_j.getD [])
    let loss := bceLoss y_pred.flatten y
    (acc.1 ++ [loss], acc.2 ++ [EvalOp.pairLoss modelLayers false loss])

/-- eval_model (src/ranking/RankNet.py lines 163-199): under
torch.no_grad(), iterate the validation pair batches computing the pairwise
sanity loss with the training model on both sides, then run the
cross-entropy and NDCG readouts with inference_model. No backward pass, no
optimizer step, and no assignment to any parameter occurs, so both
parameter sets are returned unchanged. -/
noncomputable def eval_model (modelLayers inferenceLayers : List Linear)
    (batches : List Batch) : EvalModelResult :=
  let r := batches.foldl (evalStep modelLayers) ([], [])
  { losses := r.1
    ops := r.2 ++
      [EvalOp.crossEntropyReadout inferenceLayers false,
       EvalOp.ndcgReadout inferenceLayers false [10, 30]]
    modelParamsAfter := modelLayers
    inferenceParamsAfter := inferenceLayers }

/-- C4: the binary training label for a pair of relevance label vectors is,
componentwise, 1 where y_i exceeds y_j and 0 otherwise; in particular for
y_i = [3, 1] and y_j = [1, 2] the derived label vector is [1, 0]. -/
theorem pairwise_binary_label_spec (y_i y_j : List ℝ) (i : ℕ) (a b : ℝ)
    (ha : y_i[i]? = some a) (hb : y_j[i]? = some b) :
    (binaryLabel y_i y_j)[i]? = some (if b < a then (1 : ℝ) else 0) ∧
    binaryLabel [3, 1] [1, 2] = [1, 0] := by
  constructor
  · simp [binaryLabel, List.getElem?_zipWith', ha, hb]
  · norm_num [binaryLabel]

/-- Witness for C4 at the concrete label batch y_i = [3, 1], y_j = [1, 2],
component 0. -/
theorem pairwise_binary_label_spec_witness :
    (binaryLabel [3, 1] [1, 2])[0]? = some (if (1 : ℝ) < 3 then (1 : ℝ) else 0) ∧
    binaryLabel [3, 1] [1, 2] = [1, 0] :=
  pairwise_binary_label_spec [3, 1] [1, 2] 0 3 1 rfl rfl

theorem skip_of_wf_empty {b : Batch} (hwf : b.wf) (he : b.eitherSideEmpty) :
    b.skip = true := by
  obtain ⟨xi, yi, xj, yj⟩ := b
  rcases hwf with ⟨hi, hj⟩ | ⟨mi, mj, hi, hj, hlen⟩
  · subst hi
    rfl
  · subst hi
    subst hj
    rcases he with h | h
    · simp only [sideEmpty] at h
      simp [Batch.skip, h]
    · simp only [sideEmpty] at h
      simp [Batch.skip, hlen, h]

/-- C5: a well-formed pair batch with an empty side is skipped by the epoch
loop: dropping it from the batch sequence changes nothing — it appends no
loss, takes no optimizer step, and the recorded epoch mean loss is the one
of the run without it. -/
theorem empty_batch_skipped_spec (stepFn : List Linear → Batch → List Linear)
    (epoch : ℕ) (net : List Linear) (bs1 bs2 : List Batch) (b : Batch)
    (hwf : b.wf) (he : b.eitherSideEmpty) :
    runEpoch stepFn epoch net (bs1 ++ b :: bs2)
      = runEpoch stepFn epoch net (bs1 ++ bs2) ∧
    npMean (runEpoch stepFn epoch net (bs1 ++ b :: bs2)).lossed_minibatch
      = npMean (runEpoch stepFn epoch net (bs1 ++ bs2)).lossed_minibatch ∧
    (runEpoch stepFn epoch net (bs1 ++ b :: bs2)).events
      = (runEpoch stepFn epoch net (bs1 ++ bs2)).events := by
  have hskip := skip_of_wf_empty hwf he
  have hid : ∀ st, processBatch stepFn epoch st b = st := by
    intro st
    simp [processBatch, hskip]
  have hmain : runEpoch stepFn epoch net (bs1 ++ b :: bs2)
      = runEpoch stepFn epoch net (bs1 ++ bs2) := by
    unfold runEpoch
    rw [List.foldl_append, List.foldl_append, List.foldl_cons, hid]
  exact ⟨hmain, by rw [hmain], by rw [hmain]⟩

/-- Witness for C5 at a concrete batch with both sides absent. -/
theorem empty_batch_skipped_spec_witness :
    runEpoch (fun n _ => n) 0 [] ([] ++ Batch.mk none [] none [] :: [])
      = runEpoch (fun n _ => n) 0 [] ([] ++ []) ∧
    npMean (runEpoch (fun n _ => n) 0 []
        ([] ++ Batch.mk none [] none [] :: [])).lossed_minibatch
      = npMean (runEpoch (fun n _ => n) 0 [] ([] ++ [])).lossed_minibatch ∧
    (runEpoch (fun n _ => n) 0 [] ([] ++ Batch.mk none [] none [] :: [])).events
      = (runEpoch (fun n _ => n) 0 [] ([] ++ [])).events :=
  empty_batch_skipped_spec (fun n _ => n) 0 [] [] [] (Batch.mk none [] none [])
    (Or.inl ⟨rfl, rfl⟩) (Or.inl True.intro)

/-- C7 counterexample: resuming from epoch 5 with the checkpoint file
present (model parameters [], optimizer token 1, scheduler token 1), the
model parameters are restored from the file but the optimizer and the
scheduler keep the fresh state 0 — the full checkpoint state is not
restored, refuting the claim as stated. -/
theorem resume_full_state_counterexample :
    (initTrain [("ck_5", Checkpoint.mk 5 [] 1 1)] "ck" 5 [Linear.mk [[2]] [3]]).net = [] ∧
    (initTrain [("ck_5", Checkpoint.mk 5 [] 1 1)] "ck" 5 [Linear.mk [[2]] [3]]).optState ≠ 1 ∧
    (initTrain [("ck_5", Checkpoint.mk 5 [] 1 1)] "ck" 5 [Linear.mk [[2]] [3]]).schedState ≠ 1 :=
  ⟨rfl, by decide, by decide⟩

/-- C7 amended: when training resumes from a nonzero start epoch and the
checkpoint file exists, only the model parameter subset of the checkpoint is
restored into the run; the optimizer and scheduler states stay freshly
initialized. -/
theorem resume_loads_model_params_only (fs : List (String × Checkpoint))
    (cf : String) (e : ℕ) (initNet : List Linear) (ck : Checkpoint)
    (he : e ≠ 0) (hck : fs.lookup (cf ++ "_" ++ toString e) = some ck) :
    initTrain fs cf e initNet =
      { net := ck.model_state_dict
        optState := freshOptState
        schedState := freshSchedState } := by
  simp [initTrain, load_from_ckpt, he, hck]

/-- Witness for the amended C7 at a concrete checkpoint store. -/
theorem resume_loads_model_params_only_witness :
    initTrain [("ck_5", Checkpoint.mk 5 [] 1 1)] "ck" 5 [Linear.mk [[2]] [3]] =
      { net := (Checkpoint.mk 5 [] 1 1).model_state_dict
        optState := freshOptState
        schedState := freshSchedState } :=
  resume_loads_model_params_only _ _ _ _ _ (by decide) rfl

/-- C8: when a resume from a nonzero start epoch is requested and the
suffixed checkpoint file does not exist, load_from_ckpt only prints that the
file does not exist and leaves the model untouched, and the run proceeds
with the freshly initialized parameters, optimizer and scheduler. -/
theorem missing_ckpt_nonfatal_spec (fs : List (String × Checkpoint))
    (cf : String) (e : ℕ) (initNet : List Linear)
    (h : fs.lookup (cf ++ "_" ++ toString e) = none) (he : e ≠ 0) :
    load_from_ckpt fs cf e initNet =
      (initNet, ["ckpt file does not exist " ++ (cf ++ "_" ++ toString e)]) ∧
    initTrain fs cf e initNet =
      { net := initNet, optState := freshOptState, schedState := freshSchedState } := by
  constructor
  · simp [load_from_ckpt, h]
  · simp [initTrain, load_from_ckpt, h, he]

/-- Witness for C8 with an empty checkpoint store. -/
theorem missing_ckpt_nonfatal_spec_witness :
    load_from_ckpt [] "ck" 5 [] =
      ([], ["ckpt file does not exist " ++ ("ck" ++ "_" ++ toString 5)]) ∧
    initTrain [] "ck" 5 [] =
      { net := [], optState := freshOptState, schedState := freshSchedState } :=
  missing_ckpt_nonfatal_spec [] "ck" 5 [] rfl (by decide)

/- Equations for the epoch loop and the train trace, used in the proofs. -/

theorem runEpochs_zero (stepFn : List Linear → Batch → List Linear)
    (batches : List Batch) (start i : ℕ) (net : List Linear) :
    runEpochs stepFn batches start 0 i net
      = { losses := [], events := [], net := net } := rfl

theorem runEpochs_succ_events (stepFn : List Linear → Batch → List Linear)
    (batches : List Batch) (start k i : ℕ) (net : List Linear) :
    (runEpochs stepFn batches start (k + 1) i net).events
      = (runEpoch stepFn i net batches).events ++ ckptTail start i
        ++ (runEpochs stepFn batches start k (i + 1)
              (runEpoch stepFn i net batches).net).events := rfl

theorem runEpochs_succ_losses (stepFn : List Linear → Batch → List Linear)
    (batches : List Batch) (start k i : ℕ) (net : List Linear) :
    (runEpochs stepFn batches start (k + 1) i net).losses
      = npMean (runEpoch stepFn i net batches).lossed_minibatch
        :: (runEpochs stepFn batches start k (i + 1)
              (runEpoch stepFn i net batches).net).losses := rfl

theorem train_events_eq (stepFn : List Linear → Batch → List Linear)
    (batches : List Batch) (fs : List (String × Checkpoint)) (cf : String)
    (initNet : List Linear) (start add : ℕ) :
    (train stepFn batches fs cf initNet start add).events
      = (runEpochs stepFn batches start add start
          (initTrain fs cf start initNet).net).events
        ++ [TrainEvent.saveCkpt (start + add), TrainEvent.saveFinal] := rfl

theorem train_losses_eq (stepFn : List Linear → Batch → List Linear)
    (batches : List Batch) (fs : List (String × Checkpoint)) (cf : String)
    (initNet : List Linear) (start add : ℕ) :
    (train stepFn batches fs cf initNet start add).losses
      = (runEpochs stepFn batches start add start
          (initTrain fs cf start initNet).net).losses := rfl

/- The batch loop of an epoch emits only optimizer-step events. -/

theorem processBatch_events (stepFn : List Linear → Batch → List Linear)
    (epoch : ℕ) (st : EpochState) (b : Batch) :
    (processBatch stepFn epoch st b).events = st.events ∨
    (processBatch stepFn epoch st b).events
      = st.events ++ [TrainEvent.optStep epoch] := by
  unfold processBatch
  by_cases hb : b.skip = true
  · left
    simp [hb]
  · right
    simp [hb]

theorem foldl_processBatch_events (stepFn : List Linear → Batch → List Linear)
    (epoch : ℕ) :
    ∀ (bs : List Batch) (st : EpochState),
      (∀ e ∈ st.events, e = TrainEvent.optStep epoch) →
      ∀ e ∈ (List.foldl (processBatch stepFn epoch) st bs).events,
        e = TrainEvent.optStep epoch := by
  intro bs
  induction bs with
  | nil =>
    intro st h
    exact h
  | cons b rest ih =>
    intro st h
    rw [List.foldl_cons]
    apply ih
    rcases processBatch_events stepFn epoch st b with hE | hE
    · rw [hE]
      exact h
    · rw [hE]
      intro e he
      rcases List.mem_append.1 he with h1 | h1
      · exact h e h1
      · exact List.mem_singleton.1 h1

theorem runEpoch_events_are_optSteps (stepFn : List Linear → Batch → List Linear)
    (epoch : ℕ) (net : List Linear) (batches : List Batch) :
    ∀ e ∈ (runEpoch stepFn epoch net batches).events,
      e = TrainEvent.optStep epoch := by
  unfold runEpoch
  apply foldl_processBatch_events
  intro e he
  simp at he

theorem saveCkpt_not_mem_runEpoch (stepFn : List Linear → Batch → List Linear)
    (epoch : ℕ) (net : List Linear) (batches : List Batch) (j : ℕ) :
    TrainEvent.saveCkpt j ∉ (runEpoch stepFn epoch net batches).events := by
  intro h
  have hopt := runEpoch_events_are_optSteps stepFn epoch net batches _ h
  exact TrainEvent.noConfusion hopt

/- Membership of checkpoint saves in the epoch loop trace. -/

theorem saveCkpt_mem_ckptTail (start i j : ℕ) :
    TrainEvent.saveCkpt j ∈ ckptTail start i ↔
      (i % 5 = 0 ∧ i ≠ start ∧ j = i) := by
  unfold ckptTail
  by_cases hc : i % 5 = 0 ∧ i ≠ start
  · rw [if_pos hc]
    simp [hc.1, hc.2]
  · rw [if_neg hc]
    simp
    intro h1 h2
    exact fun _ => hc ⟨h1, h2⟩

theorem saveCkpt_mem_runEpochs (stepFn : List Linear → Batch → List Linear)
    (batches : List Batch) (start j : ℕ) :
    ∀ (k i : ℕ) (net : List Linear),
      TrainEvent.saveCkpt j ∈ (runEpochs stepFn batches start k i net).events ↔
        (i ≤ j ∧ j < i + k ∧ j % 5 = 0 ∧ j ≠ start) := by
  intro k
  induction k with
  | zero =>
    intro i net
    rw [runEpochs_zero]
    simp
    omega
  | succ k ih =>
    intro i net
    rw [runEpochs_succ_events, List.append_assoc, List.mem_append, List.mem_append]
    constructor
    · rintro (h | h | h)
      · exact absurd h (saveCkpt_not_mem_runEpoch _ _ _ _ _)
      · rcases (saveCkpt_mem_ckptTail start i j).1 h with ⟨h5, hne, rfl⟩
        exact ⟨le_refl _, by omega, h5, hne⟩
      · rcases (ih (i + 1) _).1 h with ⟨h1, h2, h3, h4⟩
        exact ⟨by omega, by omega, h3, h4⟩
    · rintro ⟨h1, h2, h3, h4⟩
      by_cases hj : j = i
      · subst hj
        right
        left
        exact (saveCkpt_mem_ckptTail start j j).2 ⟨h3, h4, rfl⟩
      · right
        right
        exact (ih (i + 1) _).2 ⟨by omega, by omega, h3, h4⟩

theorem ckpt_triple_infix_runEpochs (stepFn : List Linear → Batch → List Linear)
    (batches : List Batch) (start j : ℕ) :
    ∀ (k i : ℕ) (net : List Linear),
      i ≤ j → j < i + k → j % 5 = 0 → j ≠ start →
      List.IsInfix
        [TrainEvent.saveCkpt j, TrainEvent.syncInference j, TrainEvent.runEval j]
        (runEpochs stepFn batches start k i net).events := by
  intro k
  induction k with
  | zero =>
    intro i net h1 h2 h3 h4
    omega
  | succ k ih =>
    intro i net h1 h2 h3 h4
    by_cases hj : j = i
    · subst hj
      refine ⟨(runEpoch stepFn j net batches).events,
        (runEpochs stepFn batches start k (j + 1)
          (runEpoch stepFn j net batches).net).events, ?_⟩
      rw [runEpochs_succ_events]
      unfold ckptTail
      rw [if_pos ⟨h3, h4⟩]
    · rcases ih (i + 1) (runEpoch stepFn i net batches).net
        (by omega) (by omega) h3 h4 with ⟨s, t, hst⟩
      refine ⟨(runEpoch stepFn i net batches).events ++ ckptTail start i ++ s, t, ?_⟩
      rw [runEpochs_succ_events, ← hst]
      simp [List.append_assoc]

/-- C6: over the trained epoch range, a checkpoint save event for epoch i
occurs exactly when i is in the range and divisible by 5 and not the start
epoch, or when i is the final epoch number start + additional; every
in-range save is immediately followed by the inference-model sync and the
evaluation run; and the trace ends with the final checkpoint save followed
by the standalone save of the final model parameters to the base file. -/
theorem checkpoint_schedule_spec (stepFn : List Linear → Batch → List Linear)
    (batches : List Batch) (fs : List (String × Checkpoint)) (cf : String)
    (initNet : List Linear) (start add : ℕ) :
    (∀ i, TrainEvent.saveCkpt i ∈ (train stepFn batches fs cf initNet start add).events ↔
        ((start ≤ i ∧ i < start + add ∧ i % 5 = 0 ∧ i ≠ start) ∨ i = start + add)) ∧
    (∀ i, start ≤ i → i < start + add → i % 5 = 0 → i ≠ start →
        List.IsInfix
          [TrainEvent.saveCkpt i, TrainEvent.syncInference i, TrainEvent.runEval i]
          (train stepFn batches fs cf initNet start add).events) ∧
    List.IsSuffix [TrainEvent.saveCkpt (start + add), TrainEvent.saveFinal]
      (train stepFn batches fs cf initNet start add).events := by
  refine ⟨?_, ?_, ?_⟩
  · intro i
    rw [train_events_eq, List.mem_append,
      saveCkpt_mem_runEpochs stepFn batches start i add start]
    simp
  · intro i h1 h2 h3 h4
    rw [train_events_eq]
    rcases ckpt_triple_infix_runEpochs stepFn batches start i add start
      (initTrain fs cf start initNet).net h1 h2 h3 h4 with ⟨s, t, hst⟩
    refine ⟨s, t ++ [TrainEvent.saveCkpt (start + add), TrainEvent.saveFinal], ?_⟩
    rw [← hst]
    simp [List.append_assoc]
  · exact ⟨(runEpochs stepFn batches start add start
      (initTrain fs cf start initNet).net).events, rfl⟩

/-- Witness for C6 with start epoch 0 and 6 additional epochs, at epoch 5. -/
theorem checkpoint_schedule_spec_witness :
    (TrainEvent.saveCkpt 5 ∈ (train (fun n _ => n) [] [] "ck" [] 0 6).events ↔
        ((0 ≤ 5 ∧ 5 < 0 + 6 ∧ 5 % 5 = 0 ∧ 5 ≠ 0) ∨ 5 = 0 + 6)) ∧
    List.IsInfix
      [TrainEvent.saveCkpt 5, TrainEvent.syncInference 5, TrainEvent.runEval 5]
      (train (fun n _ => n) [] [] "ck" [] 0 6).events ∧
    List.IsSuffix [TrainEvent.saveCkpt (0 + 6), TrainEvent.saveFinal]
      (train (fun n _ => n) [] [] "ck" [] 0 6).events := by
  have h := checkpoint_schedule_spec (fun n _ => n) [] [] "ck" [] 0 6
  exact ⟨h.1 5, h.2.1 5 (by decide) (by decide) (by decide) (by decide), h.2.2⟩

/- The evaluation routine: shape of its operation trace. -/

theorem evalStep_ops (ml : List Linear) (acc : List ℝ × List EvalOp) (b : Batch) :
    (evalStep ml acc b).2 = acc.2 ∨
    ∃ v, (evalStep ml acc b).2 = acc.2 ++ [EvalOp.pairLoss ml false v] := by
  unfold evalStep
  by_cases hb : b.skip = true
  · left
    simp [hb]
  · right
    refine ⟨bceLoss (RankNet.forwardBatch ml (b.x_i.getD []) (b.x_j.getD [])).flatten
      (binaryLabel b.y_i b.y_j), ?_⟩
    simp [hb]

theorem foldl_evalStep_ops (ml : List Linear) :
    ∀ (bs : List Batch) (acc : List ℝ × List EvalOp),
      (∀ op ∈ acc.2, ∃ v, op = EvalOp.pairLoss ml false v) →
      ∀ op ∈ (List.foldl (evalStep ml) acc bs).2,
        ∃ v, op = EvalOp.pairLoss ml false v := by
  intro bs
  induction bs with
  | nil =>
    intro acc h
    exact h
  | cons b rest ih =>
    intro acc h
    rw [List.foldl_cons]
    apply ih
    rcases evalStep_ops ml acc b with hE | ⟨v, hE⟩
    · rw [hE]
      exact h
    · rw [hE]
      intro op hop
      rcases List.mem_append.1 hop with h1 | h1
      · exact h op h1
      · exact ⟨v, List.mem_singleton.1 h1⟩

/-- C9 counterexample: calling eval_model with distinct training and
inference parameters on one processed validation batch, the pairwise
sanity-loss operation in the trace reads the training model parameters,
which differ from the inference parameters — refuting, as stated, that the
routine uses the Inference Model for both sides of each validation pair. -/
theorem eval_uses_inference_counterexample :
    ¬ (∀ op ∈ (eval_model [Linear.mk [[1]] [0]] [Linear.mk [[0]] [0]]
          [Batch.mk (some [[1]]) [1] (some [[0]]) [0]]).ops,
        ∀ u g v, op = EvalOp.pairLoss u g v → u = [Linear.mk [[0]] [0]]) := by
  intro hall
  have hmem : EvalOp.pairLoss [Linear.mk [[1]] [0]] false
        (bceLoss (RankNet.forwardBatch [Linear.mk [[1]] [0]] [[1]] [[0]]).flatten
          (binaryLabel [1] [0]))
      ∈ (eval_model [Linear.mk [[1]] [0]] [Linear.mk [[0]] [0]]
          [Batch.mk (some [[1]]) [1] (some [[0]]) [0]]).ops :=
    List.mem_cons_self _ _
  have heq := hall _ hmem _ _ _ rfl
  norm_num [Linear.mk.injEq] at heq

/-- C9 amended: eval_model computes the pairwise cross-entropy sanity loss
with the training model (its first argument) on both sides of each
validation pair — the Inference Model is used for the cross-entropy and
NDCG readouts — every operation runs with gradient tracking disabled, the
trace contains no backward pass and no optimizer step, and every parameter
of both the training model and the Inference Model is unchanged when the
routine returns. -/
theorem eval_model_no_mutation_spec (ml il : List Linear) (bs : List Batch) :
    (eval_model ml il bs).modelParamsAfter = ml ∧
    (eval_model ml il bs).inferenceParamsAfter = il ∧
    (∀ op ∈ (eval_model ml il bs).ops,
      (∃ v, op = EvalOp.pairLoss ml false v) ∨
      op = EvalOp.crossEntropyReadout il false ∨
      op = EvalOp.ndcgReadout il false [10, 30]) := by
  refine ⟨rfl, rfl, ?_⟩
  intro op hop
  have hops : (eval_model ml il bs).ops
      = (bs.foldl (evalStep ml) ([], [])).2 ++
        [EvalOp.crossEntropyReadout il false,
         EvalOp.ndcgReadout il false [10, 30]] := rfl
  rw [hops] at hop
  rcases List.mem_append.1 hop with h1 | h1
  · left
    exact foldl_evalStep_ops ml bs ([], []) (by simp) op h1
  · rcases List.mem_cons.1 h1 with h2 | h2
    · right
      left
      exact h2
    · right
      right
      exact List.mem_singleton.1 h2

/-- Witness for the amended C9, applied to the cross-entropy readout
operation of a concrete call. -/
theorem eval_model_no_mutation_spec_witness :
    (∃ v, EvalOp.crossEntropyReadout [] false = EvalOp.pairLoss [] false v) ∨
    EvalOp.crossEntropyReadout [] false = EvalOp.crossEntropyReadout [] false ∨
    EvalOp.crossEntropyReadout ([] : List Linear) false
      = EvalOp.ndcgReadout [] false [10, 30] :=
  (eval_model_no_mutation_spec [] [] []).2.2 _ (List.mem_cons_self _ _)

/- An epoch whose batches are all skipped. -/

theorem foldl_processBatch_all_skip (stepFn : List Linear → Batch → List Linear)
    (epoch : ℕ) :
    ∀ (bs : List Batch) (st : EpochState), (∀ b ∈ bs, b.skip = true) →
      List.foldl (processBatch stepFn epoch) st bs = st := by
  intro bs
  induction bs with
  | nil =>
    intro st _
    rfl
  | cons b rest ih =>
    intro st h
    rw [List.foldl_cons]
    have hb : processBatch stepFn epoch st b = st := by
      simp [processBatch, h b (List.mem_cons_self b rest)]
    rw [hb]
    exact ih st (fun x hx => h x (List.mem_cons_of_mem b hx))

theorem runEpoch_all_skip (stepFn : List Linear → Batch → List Linear)
    (epoch : ℕ) (net : List Linear) (batches : List Batch)
    (h : ∀ b ∈ batches, b.skip = true) :
    runEpoch stepFn epoch net batches
      = { net := net, lossed_minibatch := [], events := [] } :=
  foldl_processBatch_all_skip stepFn epoch batches _ h

theorem optStep_not_mem_ckptTail (start i j : ℕ) :
    TrainEvent.optStep j ∉ ckptTail start i := by
  unfold ckptTail
  by_cases hc : i % 5 = 0 ∧ i ≠ start
  · rw [if_pos hc]
    simp
  · rw [if_neg hc]
    simp

theorem runEpochs_all_skip (stepFn : List Linear → Batch → List Linear)
    (batches : List Batch) (start : ℕ) (h : ∀ b ∈ batches, b.skip = true) :
    ∀ (k i : ℕ) (net : List Linear),
      (runEpochs stepFn batches start k i net).losses
        = List.replicate k (npMean []) ∧
      (∀ j, TrainEvent.optStep j ∉ (runEpochs stepFn batches start k i net).events) := by
  intro k
  induction k with
  | zero =>
    intro i net
    rw [runEpochs_zero]
    simp
  | succ k ih =>
    intro i net
    constructor
    · rw [runEpochs_succ_losses, runEpoch_all_skip stepFn i net batches h,
        List.replicate_succ]
      rw [(ih (i + 1) _).1]
    · intro j hmem
      rw [runEpochs_succ_events, List.append_assoc] at hmem
      rcases List.mem_append.1 hmem with h1 | h1
      · rw [runEpoch_all_skip stepFn i net batches h] at h1
        simp at h1
      · rcases List.mem_append.1 h1 with h2 | h2
        · exact optStep_not_mem_ckptTail start i j h2
        · exact (ih (i + 1) _).2 j h2

/-- C10: when every batch yielded by the generator is skipped, every epoch
of the run still records one loss entry, namely the mean of the empty loss
list — NaN, modelled as none, hence neither zero nor any other number, and
not an error since the run completes — and no optimizer step occurs
anywhere in the run. -/
theorem all_batches_skipped_spec (stepFn : List Linear → Batch → List Linear)
    (batches : List Batch) (fs : List (String × Checkpoint)) (cf : String)
    (initNet : List Linear) (start add : ℕ)
    (h : ∀ b ∈ batches, b.skip = true) :
    (train stepFn batches fs cf initNet start add).losses
      = List.replicate add (npMean []) ∧
    npMean [] = none ∧
    (∀ r : ℝ, npMean [] ≠ some r) ∧
    (∀ j, TrainEvent.optStep j ∉ (train stepFn batches fs cf initNet start add).events) := by
  refine ⟨?_, rfl, fun r => by simp [npMean], ?_⟩
  · rw [train_losses_eq]
    exact (runEpochs_all_skip stepFn batches start h add start _).1
  · intro j hmem
    rw [train_events_eq] at hmem
    rcases List.mem_append.1 hmem with h1 | h1
    · exact (runEpochs_all_skip stepFn batches start h add start _).2 j h1
    · simp at h1

/-- Witness for C10 with one absent-sided batch and two epochs. -/
theorem all_batches_skipped_spec_witness :
    (train (fun n _ => n) [Batch.mk none [] none []] [] "ck" [] 0 2).losses
      = List.replicate 2 (npMean []) ∧
    npMean [] = none ∧
    (∀ r : ℝ, npMean [] ≠ some r) ∧
    (∀ j, TrainEvent.optStep j
      ∉ (train (fun n _ => n) [Batch.mk none [] none []] [] "ck" [] 0 2).events) :=
  all_batches_skipped_spec (fun n _ => n) [Batch.mk none [] none []] [] "ck" [] 0 2
    (by
      intro b hb
      rw [List.mem_singleton] at hb
      subst hb
      rfl)
